import Mathlib

/-!
Shallow embedding, in Lean 4, of the SupportMind application: the frontend
helpers and pages that are part of the visible sources
(`frontend/src/lib/utils.ts`, `frontend/src/lib/api.ts`, the Learning page,
the Copilot page and the `Markdown` component), together with a model, built
from the written design document, of the backend learning-loop core
(EventStore, GapScanner, ReviewGate, PublishIndexer, ConfidenceRetriever),
whose implementation is not part of the visible sources.

JavaScript strings are modelled as Lean `String`s (sequences of Unicode
scalar values), JSON request bodies as association lists of field name /
value pairs, and floating point confidences as rationals.
-/

namespace Utils

/-- Embedding of `String.prototype.slice(0, e)`: a negative end index counts
from the end of the string, a positive one is clamped to the length. -/
def jsSliceTo (s : List Char) (e : Int) : List Char :=
  let n : Int := s.length
  let stop : Int := if e < 0 then max (n + e) 0 else min e n
  s.take stop.toNat

/-- `truncate` from `frontend/src/lib/utils.ts`:
`if (text.length <= max) return text; return text.slice(0, max - 1) + "…";` -/
def truncate (text : String) (max : Int) : String :=
  if (text.length : Int) ≤ max then text
  else String.mk (jsSliceTo text.data (max - 1)) ++ "…"

/-- Embedding of `String.prototype.toLowerCase()` (character-wise lowercasing;
the statuses compared against are ASCII). -/
def toLowerString (s : String) : String := String.mk (s.data.map Char.toLower)

/-- `statusColor` from `frontend/src/lib/utils.ts`: lowercases the status and
returns the badge class string for approved / rejected / pending / closed,
with a default equal to the `closed` string. -/
def statusColor (status : String) : String :=
  let s := toLowerString status
  if s = "approved" then "bg-green-50 text-green-700 border-green-200"
  else if s = "rejected" then "bg-red-50 text-red-700 border-red-200"
  else if s = "pending" then "bg-amber-50 text-amber-700 border-amber-200"
  else if s = "closed" then "bg-neutral-100 text-neutral-600 border-neutral-200"
  else "bg-neutral-100 text-neutral-600 border-neutral-200"

end Utils

namespace Api

/-- A JSON field value as used by the request bodies below: a string or a
number (numbers modelled as rationals). -/
inductive JsonValue
| str (s : String)
| num (q : ℚ)
deriving DecidableEq

/-- A JSON object literal, modelled as its field name / value pairs in source
order. -/
abbrev JsonBody := List (String × JsonValue)

/-- The `action` argument of `reviewEvent` in `frontend/src/lib/api.ts`,
typed `"approve" | "reject"` in the source. -/
inductive ReviewAction
| approve
| reject
deriving DecidableEq

/-- The string serialized for a `ReviewAction`. -/
def ReviewAction.toStr : ReviewAction → String
| .approve => "approve"
| .reject => "reject"

/-- The JSON body built by `reviewEvent` in `frontend/src/lib/api.ts`:
`JSON.stringify({event_id, action, reviewer_notes: notes, edited_title, edited_body})`.
The source declares defaults `""` for `notes`, `editedTitle` and `editedBody`;
call sites that omit them pass `""` here. -/
def reviewEventBody (eventId : String) (action : ReviewAction)
    (notes editedTitle editedBody : String) : JsonBody :=
  [("event_id", .str eventId),
   ("action", .str action.toStr),
   ("reviewer_notes", .str notes),
   ("edited_title", .str editedTitle),
   ("edited_body", .str editedBody)]

/-- The JSON body built by `reportGapFromCopilot` in `frontend/src/lib/api.ts`:
`JSON.stringify({question, confidence})`. -/
def reportGapBody (question : String) (confidence : ℚ) : JsonBody :=
  [("question", .str question), ("confidence", .num confidence)]

end Api

namespace LearningPage

/-- The component state of the Learning page feeding a review decision: the
`reviewNotes` textarea and the `editedDraftBody` textarea (the draft editor
bound at the `GENERATED KB DRAFT — EDITABLE` panel). -/
structure State where
  reviewNotes : String
  editedDraftBody : String

/-- The request body sent by `handleReview` on the Learning page. The source
calls `reviewEvent(eventId, action, reviewNotes)`, so `edited_title` and
`edited_body` take `reviewEvent`'s declared defaults `""`; the page state
`editedDraftBody` is not passed. -/
def handleReviewBody (st : State) (eventId : String) (action : Api.ReviewAction) :
    Api.JsonBody :=
  Api.reviewEventBody eventId action st.reviewNotes "" ""

end LearningPage

namespace Copilot

/-- A chat role on the Copilot page. -/
inductive Role
| user
| assistant
deriving DecidableEq

/-- A copilot answer as far as the report-gap flow uses it. -/
structure Response where
  confidence : ℚ

/-- A chat message on the Copilot page. -/
structure Message where
  role : Role
  content : String
  response : Option Response

/-- The question string the report-gap click handler computes:
`messages.filter(m => m.role === "user").pop()?.content ?? ""` — the content
of the most recent user message in the whole chat, or `""`. -/
def lastUserContent (messages : List Message) : String :=
  match (messages.filter (fun m => m.role = .user)).getLast? with
  | some m => m.content
  | none => ""

/-- The report-gap click handler on the Copilot page, for the answer at index
`i`: the button is rendered for an assistant message carrying a response with
`confidence < 0.5`, and clicking it sends
`reportGapFromCopilot(q, msg.response.confidence)` with `q = lastUserContent`. -/
def reportGapClick (messages : List Message) (i : Nat) : Option Api.JsonBody :=
  match messages[i]? with
  | none => none
  | some msg =>
    match msg.response with
    | none => none
    | some r =>
      if msg.role = .assistant ∧ r.confidence < 1/2 then
        some (Api.reportGapBody (lastUserContent messages) r.confidence)
      else none

/-- The user question that received the answer at index `i`: the content of
the last user message strictly before `i`. -/
def questionFor (messages : List Message) (i : Nat) : Option String :=
  (((messages.take i).filter (fun m => m.role = .user)).getLast?).map (fun m => m.content)

end Copilot

namespace Markdown

/-- The whitespace class `\s` of JavaScript regular expressions. -/
def isJsWs (c : Char) : Bool :=
  c == ' ' || c == '\t' || c == '\n' || c == '\r' || c == '\x0b' || c == '\x0c' ||
  c == ' ' || c == ' ' ||
  (decide (' ' ≤ c) && decide (c ≤ ' ')) ||
  c == ' ' || c == ' ' || c == ' ' || c == ' ' ||
  c == '　' || c == '﻿'

/-- The line terminators that `.` in a JavaScript regular expression (without
the dotAll flag) does not match. -/
def isLineTerm (c : Char) : Bool :=
  c == '\n' || c == '\r' || c == ' ' || c == ' '

/-- `line.match(/^\d+\.\s+(.+)/)`, returning the first capture group.
Embedding of the backtracking regex semantics: a maximal nonempty digit run,
then a literal dot, then `\s+(.+)` — the greedy whitespace run backs off just
enough to leave at least one character that `.` can match, and the capture is
the maximal run of non-line-terminator characters from that point. -/
def numbered (l : String) : Option String :=
  let cs := l.data
  let ds := cs.takeWhile Char.isDigit
  if ds.isEmpty then none
  else
    match cs.dropWhile Char.isDigit with
    | '.' :: rest2 =>
      let ws := rest2.takeWhile isJsWs
      let tail := rest2.dropWhile isJsWs
      if ws.isEmpty then none
      else
        match tail with
        | _ :: _ => some (String.mk (tail.takeWhile (fun c => !isLineTerm c)))
        | [] =>
          match ((ws.drop 1).filter (fun c => !isLineTerm c)).getLast? with
          | some c => some (String.mk [c])
          | none => none
    | _ => none

/-- An element produced by the `Markdown` component, one constructor per
rendering branch: `olist` is the `<ol>` built by `flushList`; `head3`,
`head2`, `head1` are the `### `, `## `, `# ` headings; `bullet` the `- `
line; `blank` the empty-line spacer; `para` the default paragraph. -/
inductive MdElem
| olist (items : List String)
| head3 (t : String)
| head2 (t : String)
| head1 (t : String)
| bullet (t : String)
| blank
| para (t : String)
deriving DecidableEq

/-- The non-list rendering branches of the `Markdown` loop (identical in both
variants of the component up to styling and inline rendering). -/
def classifyLine (line : String) : MdElem :=
  if line.startsWith "### " then .head3 (line.drop 4)
  else if line.startsWith "## " then .head2 (line.drop 3)
  else if line.startsWith "# " then .head1 (line.drop 2)
  else if line.startsWith "- " then .bullet (line.drop 2)
  else if line.trim = "" then .blank
  else .para line

/-- `flushList()`: an empty buffer produces nothing, a non-empty buffer is
emitted as exactly one ordered-list element and cleared. -/
def flushList (buf : List String) : List MdElem :=
  if buf.isEmpty then [] else [.olist buf]

/-- The main loop of the `Markdown` component: numbered lines push their
capture onto `listBuffer` and continue; any other line runs `flushList()`
first and is then rendered itself; a final `flushList()` runs after the
loop. -/
def renderLoop : List String → List String → List MdElem
  | buf, [] => flushList buf
  | buf, line :: rest =>
    match numbered line with
    | some t => renderLoop (buf ++ [t]) rest
    | none => flushList buf ++ (classifyLine line :: renderLoop [] rest)

/-- `Markdown({content})`: `content.split("\n")` then the rendering loop with
an empty buffer. -/
def render (content : String) : List MdElem :=
  renderLoop [] (content.splitOn "\n")

/-- Follows the words of the specification (refinement reference for the
renderer): each maximal run of consecutive numbered lines becomes exactly one
ordered-list element whose items are the captured texts in original order;
a non-matching line terminates the current run and is rendered itself. -/
def groupRuns : List String → List MdElem
  | [] => []
  | line :: rest =>
    if h : (numbered line).isSome then
      .olist (((line :: rest).takeWhile (fun l => (numbered l).isSome)).filterMap numbered)
        :: groupRuns ((line :: rest).dropWhile (fun l => (numbered l).isSome))
    else classifyLine line :: groupRuns rest
termination_by ls => ls.length
decreasing_by
  · simp only [List.dropWhile_cons, h, if_pos]
    have hle : ∀ (l : List String),
        (l.dropWhile (fun l => (numbered l).isSome)).length ≤ l.length := by
      intro l
      induction l with
      | nil => simp [List.dropWhile]
      | cons a t iht =>
        rw [List.dropWhile_cons]
        split
        · exact Nat.le_succ_of_le iht
        · exact Nat.le_refl _
    exact Nat.lt_succ_of_le (hle rest)
  · simp only [List.length_cons]
    exact Nat.lt_succ_self rest.length

end Markdown

namespace Core

/-- Modelled from the spec: the `LearningEvent` status values of the backend
state machine; the backend (EventStore, GapScanner, ReviewGate,
PublishIndexer) is not part of the visible sources. -/
inductive Status
| Pending
| Approved
| Rejected
deriving DecidableEq

/-- Modelled from the spec: a `LearningEvent` record of the EventStore, with
the fields the verified invariants concern. -/
structure LearningEvent where
  event_id : Nat
  ticket_number : String
  detected_gap : String
  proposed_kb_id : String
  status : Status
  review_notes : String
  best_kb_score : ℚ
  best_kb_match : String
deriving DecidableEq

/-- Modelled from the spec: the `KBArticle` status values. -/
inductive ArticleStatus
| Draft
| Published
deriving DecidableEq

/-- Modelled from the spec: the `KBArticle` source values. -/
inductive SourceType
| seed
| generated
deriving DecidableEq

/-- Modelled from the spec: a persisted `KBArticle`. -/
structure KBArticle where
  kb_article_id : String
  title : String
  body : String
  status : ArticleStatus
  source_type : SourceType
deriving DecidableEq

/-- Modelled from the spec: the combined core state — the EventStore, the KB
article store, and the KB collection of the external vector index as the list
of `(kb_article_id, embedded text)` entries that are currently searchable. -/
structure SysState where
  events : List LearningEvent
  articles : List KBArticle
  index : List (String × String)
deriving DecidableEq

/-- Modelled from the spec: a resolved Tier-3 ticket from the external ticket
source. -/
structure Ticket where
  number : String
  resolution : String

/-- Modelled from the spec: the GapScanner dedup test keyed by
`ticket_number` — does any event (Pending or terminal) already cover this
ticket number. -/
def hasEventFor (events : List LearningEvent) (tn : String) : Bool :=
  events.any (fun e => e.ticket_number == tn)

/-- Modelled from the spec: the Pending `LearningEvent` the scanner creates
for a ticket whose retrieval confidence fell below the gap threshold. -/
def mkGapEvent (score : Ticket → ℚ) (bestMatch : Ticket → String)
    (events : List LearningEvent) (t : Ticket) : LearningEvent :=
  { event_id := events.length, ticket_number := t.number,
    detected_gap := t.resolution, proposed_kb_id := "KB-" ++ t.number,
    status := .Pending, review_notes := "",
    best_kb_score := score t, best_kb_match := bestMatch t }

/-- Modelled from the spec: one GapScanner iteration for one ticket: skip a
ticket number that already has an event; otherwise, when the retrieval
confidence is below the gap threshold (abstracted as the predicate `gap`,
with `score`/`bestMatch` the retrieval outcome), create a `Pending` event.
Returns the new store and how many events were created (0 or 1). -/
def scanStep (gap : Ticket → Bool) (score : Ticket → ℚ) (bestMatch : Ticket → String)
    (events : List LearningEvent) (t : Ticket) : List LearningEvent × Nat :=
  if hasEventFor events t.number then (events, 0)
  else if gap t then (events ++ [mkGapEvent score bestMatch events t], 1)
  else (events, 0)

/-- Modelled from the spec: the ticket loop of `scan()`. -/
def scanGo (gap : Ticket → Bool) (score : Ticket → ℚ) (bestMatch : Ticket → String) :
    List LearningEvent → List Ticket → List LearningEvent × Nat
  | events, [] => (events, 0)
  | events, t :: ts =>
    let r := scanStep gap score bestMatch events t
    let rest := scanGo gap score bestMatch r.1 ts
    (rest.1, r.2 + rest.2)

/-- Modelled from the spec: the `scan()` result record. -/
structure ScanResult where
  tickets_scanned : Nat
  new_gaps_found : Nat
  total_events : Nat
deriving DecidableEq

/-- Modelled from the spec: `GapScanner.scan()`: iterate all resolved Tier-3
tickets, deduplicate by ticket number against the EventStore, and create
Pending events for detected gaps. -/
def scan (gap : Ticket → Bool) (score : Ticket → ℚ) (bestMatch : Ticket → String)
    (tickets : List Ticket) (events : List LearningEvent) :
    List LearningEvent × ScanResult :=
  let p := scanGo gap score bestMatch events tickets
  (p.1, { tickets_scanned := tickets.length, new_gaps_found := p.2,
          total_events := p.1.length })

/-- Modelled from the spec: `scan()` acting on the whole core state (the
scanner reads and writes only the EventStore). -/
def scanState (gap : Ticket → Bool) (score : Ticket → ℚ) (bestMatch : Ticket → String)
    (tickets : List Ticket) (s : SysState) : SysState × ScanResult :=
  let r := scan gap score bestMatch tickets s.events
  ({ s with events := r.1 }, r.2)

/-- Modelled from the spec: the review-path error taxonomy (`InvalidStateError`
for a decision on a non-Pending event; a missing event id is reported
separately). -/
inductive ReviewError
| InvalidStateError
| NotFoundError
deriving DecidableEq

/-- Modelled from the spec: EventStore lookup by event id. -/
def findEvent (events : List LearningEvent) (eid : Nat) : Option LearningEvent :=
  events.find? (fun e => e.event_id == eid)

/-- Modelled from the spec: EventStore in-place update of one event by id. -/
def updateEvent (events : List LearningEvent) (eid : Nat)
    (f : LearningEvent → LearningEvent) : List LearningEvent :=
  events.map (fun e => if e.event_id == eid then f e else e)

/-- Modelled from the spec: the draft content handed to PublishIndexer on
approval (possibly reviewer-edited). -/
structure DraftContent where
  title : String
  body : String

/-- Modelled from the spec: `ReviewGate.reject(event_id, notes)`: requires
status Pending, flips the event to Rejected and stamps the audit notes; on a
non-Pending event it fails with `InvalidStateError` and changes nothing, and
it never touches the KB or the index. -/
def reject (s : SysState) (eid : Nat) (notes : String) :
    SysState × Except ReviewError Unit :=
  match findEvent s.events eid with
  | none => (s, .error .NotFoundError)
  | some e =>
    if e.status = .Pending then
      let f := fun ev =>
        { ev with status := Status.Rejected, review_notes := notes }
      ({ s with events := updateEvent s.events eid f }, .ok ())
    else (s, .error .InvalidStateError)

/-- Modelled from the spec: is a KB article id already claimed? -/
def claimed (articles : List KBArticle) (kid : String) : Bool :=
  articles.any (fun a => a.kb_article_id == kid)

/-- Modelled from the spec: the id PublishIndexer assigns: the event's
proposed id when unclaimed, otherwise a freshly minted one. -/
def publishId (s : SysState) (e : LearningEvent) : String :=
  if claimed s.articles e.proposed_kb_id then "KB-GEN-" ++ toString s.articles.length
  else e.proposed_kb_id

/-- Modelled from the spec: `ReviewGate.approve` + `PublishIndexer.publish`
as the single transaction the spec prescribes: requires status Pending; in
one atomic state transition it writes the article with `status = Published`,
writes its embedding into the vector index, and flips the event to Approved
with the final kb id. On a non-Pending event it fails with
`InvalidStateError` and changes nothing. Returns the published
`kb_article_id` on success. -/
def approve (s : SysState) (eid : Nat) (notes : String) (content : DraftContent) :
    SysState × Except ReviewError String :=
  match findEvent s.events eid with
  | none => (s, .error .NotFoundError)
  | some e =>
    if e.status = .Pending then
      let kid := publishId s e
      let f := fun ev =>
        { ev with status := Status.Approved, review_notes := notes, proposed_kb_id := kid }
      let article : KBArticle :=
        { kb_article_id := kid, title := content.title, body := content.body,
          status := .Published, source_type := .generated }
      ({ events := updateEvent s.events eid f,
         articles := s.articles ++ [article],
         index := s.index ++ [(kid, content.body)] }, .ok kid)
    else (s, .error .InvalidStateError)

/-- Modelled from the spec: the low-confidence report path: creates a Pending
event for the question, deduplicating by ticket number like the scanner (the
spec requires the dedup constraint on both write paths). -/
def reportGap (s : SysState) (tn : String) (question : String) (confidence : ℚ) :
    SysState :=
  if hasEventFor s.events tn then s
  else { s with events := s.events ++
    [{ event_id := s.events.length, ticket_number := tn, detected_gap := question,
       proposed_kb_id := "KB-" ++ tn, status := .Pending, review_notes := "",
       best_kb_score := confidence, best_kb_match := "" }] }

/-- Modelled from the spec: a search hit returned by ConfidenceRetriever. -/
structure SearchHit where
  id : String
  score : ℚ
deriving DecidableEq

/-- Modelled from the spec: `ConfidenceRetriever.retrieve` over the KB
collection: score every searchable entry of the vector index against the
query with the external embedding similarity `sim` and return the hits ranked
by score descending (the index itself is an external black-box
nearest-neighbour service). -/
def retrieve (sim : String → String → ℚ) (s : SysState) (query : String) :
    List SearchHit :=
  (s.index.map (fun d => { id := d.1, score := sim query d.2 : SearchHit })).mergeSort
    (fun a b => decide (b.score ≤ a.score))

/-- Modelled from the spec: the document appears among the candidate matches
of a retrieval result. -/
def isCandidate (hits : List SearchHit) (kid : String) : Prop :=
  ∃ h ∈ hits, h.id = kid

/-- Modelled from the spec: the atomicity invariant of §4.5: every Published
article's embedding is searchable, and every Approved event's article exists,
is Published, and is indexed. -/
def Inv (s : SysState) : Prop :=
  (∀ a ∈ s.articles, a.status = .Published → ∃ d ∈ s.index, d.1 = a.kb_article_id) ∧
  (∀ e ∈ s.events, e.status = .Approved →
    ∃ a ∈ s.articles, a.kb_article_id = e.proposed_kb_id ∧ a.status = .Published ∧
      ∃ d ∈ s.index, d.1 = a.kb_article_id)

/-- Modelled from the spec: at most one Pending event per ticket number. -/
def AtMostOnePending (events : List LearningEvent) : Prop :=
  ∀ tn, events.countP
    (fun e => e.status == .Pending && e.ticket_number == tn) ≤ 1

/-- Modelled from the spec: one observable operation of the learning-loop
core (the scanner batch, the low-confidence report path, and the two review
decisions). -/
inductive Step : SysState → SysState → Prop
| scan (gap : Ticket → Bool) (score : Ticket → ℚ) (bestMatch : Ticket → String)
    (tickets : List Ticket) (s : SysState) :
    Step s (scanState gap score bestMatch tickets s).1
| report (tn question : String) (confidence : ℚ) (s : SysState) :
    Step s (reportGap s tn question confidence)
| reject (eid : Nat) (notes : String) (s : SysState) :
    Step s (reject s eid notes).1
| approve (eid : Nat) (notes : String) (content : DraftContent) (s : SysState) :
    Step s (approve s eid notes content).1

/-- Modelled from the spec: states reachable by repeated core operations. -/
inductive Reachable : SysState → SysState → Prop
| refl (s : SysState) : Reachable s s
| tail {s t u : SysState} : Reachable s t → Step t u → Reachable s u

end Core

namespace Utils

theorem charToLower_unfold (c : Char) :
    c.toLower = if c.toNat ≥ 65 ∧ c.toNat ≤ 90 then Char.ofNat (c.toNat + 32) else c := rfl

theorem charToLower_fix (c : Char) : ¬ (c.toLower.toNat ≥ 65 ∧ c.toLower.toNat ≤ 90) := by
  rw [charToLower_unfold]
  by_cases h : c.toNat ≥ 65 ∧ c.toNat ≤ 90
  · rw [if_pos h]
    have hv : (c.toNat + 32).isValidChar := Or.inl (by omega)
    have ht : (Char.ofNat (c.toNat + 32)).toNat = c.toNat + 32 := by
      show (dite _ _ _ : Char).toNat = _
      rw [dif_pos hv]
      simp [Char.ofNatAux, Char.toNat, UInt32.toNat]
    rw [ht]
    omega
  · rw [if_neg h]
    exact h

theorem charToLower_idem (c : Char) : c.toLower.toLower = c.toLower := by
  rw [charToLower_unfold c.toLower, if_neg (charToLower_fix c)]

theorem toLowerString_idem (s : String) :
    toLowerString (toLowerString s) = toLowerString s := by
  simp only [toLowerString, List.map_map]
  exact congrArg String.mk (List.map_congr_left fun c _ => charToLower_idem c)

theorem string_append_data (a b : String) : (a ++ b).data = a.data ++ b.data := rfl

theorem truncate_data_of_lt (text : String) (max : Int) (hgt : max < (text.length : Int))
    (h1 : 1 ≤ max) :
    (truncate text max).data = text.data.take (max.toNat - 1) ++ ['…'] := by
  have hne : ¬ ((text.length : Int) ≤ max) := by omega
  have hslice : jsSliceTo text.data (max - 1) = text.data.take (max.toNat - 1) := by
    simp only [jsSliceTo]
    have hnneg : ¬ ((max - 1 : Int) < 0) := by omega
    rw [if_neg hnneg]
    have hmin : min (max - 1) ((text.data.length : Int)) = max - 1 := by
      have : (text.data.length : Int) = (text.length : Int) := rfl
      omega
    rw [hmin]
    congr 1
    omega
  simp only [truncate, if_neg hne, string_append_data]
  rw [hslice]

/-- C8: for `max ≥ 1`, `truncate` returns `text` unchanged when it fits, and
otherwise returns a string of length exactly `max` whose first `max - 1`
characters are those of `text` and whose last character is the ellipsis. -/
theorem truncate_correct (text : String) (max : Int) (h : 1 ≤ max) :
    ((text.length : Int) ≤ max → truncate text max = text) ∧
    (max < (text.length : Int) →
      ((truncate text max).length : Int) = max ∧
      (truncate text max).data.take (max.toNat - 1) = text.data.take (max.toNat - 1) ∧
      (truncate text max).data.getLast? = some '…') := by
  constructor
  · intro hle
    simp [truncate, hle]
  · intro hgt
    have hdata := truncate_data_of_lt text max hgt h
    have htklen : (text.data.take (max.toNat - 1)).length = max.toNat - 1 := by
      rw [List.length_take]
      have : (text.data.length : Int) = (text.length : Int) := rfl
      omega
    refine ⟨?_, ?_, ?_⟩
    · have : (truncate text max).length = (truncate text max).data.length := rfl
      rw [this, hdata]
      simp only [List.length_append, htklen, List.length_singleton]
      omega
    · rw [hdata, List.take_append_eq_append_take, htklen]
      simp
    · rw [hdata, List.getLast?_concat]

theorem truncate_correct_witness :
    ((Utils.truncate "hello" 3).length : Int) = 3 :=
  ((Utils.truncate_correct "hello" 3 (by decide)).2 (by decide)).1

/-- C9: `statusColor` is total and case-insensitive, returns one of four fixed
class strings, and maps everything that is not a case variant of
approved / rejected / pending (including `closed`) to the neutral default. -/
theorem statusColor_correct (status : String) :
    statusColor status = statusColor (toLowerString status) ∧
    (statusColor status = "bg-green-50 text-green-700 border-green-200" ∨
     statusColor status = "bg-red-50 text-red-700 border-red-200" ∨
     statusColor status = "bg-amber-50 text-amber-700 border-amber-200" ∨
     statusColor status = "bg-neutral-100 text-neutral-600 border-neutral-200") ∧
    (toLowerString status ≠ "approved" → toLowerString status ≠ "rejected" →
     toLowerString status ≠ "pending" →
     statusColor status = "bg-neutral-100 text-neutral-600 border-neutral-200") := by
  refine ⟨?_, ?_, ?_⟩
  · simp only [statusColor, toLowerString_idem]
  · simp only [statusColor]
    split_ifs <;> simp
  · intro h1 h2 h3
    simp only [statusColor]
    split_ifs <;> simp_all

theorem statusColor_correct_witness :
    Utils.statusColor "Closed" = "bg-neutral-100 text-neutral-600 border-neutral-200" :=
  (Utils.statusColor_correct "Closed").2.2 (by decide) (by decide) (by decide)

end Utils

namespace Api

/-- C7: the JSON body sent to POST /learning/review contains exactly the
fields event_id, action, reviewer_notes, edited_title and edited_body, in
source order, and the action field is "approve" or "reject". -/
theorem reviewEventBody_fields (eventId : String) (action : ReviewAction)
    (notes editedTitle editedBody : String) :
    (reviewEventBody eventId action notes editedTitle editedBody).map Prod.fst
      = ["event_id", "action", "reviewer_notes", "edited_title", "edited_body"] ∧
    (reviewEventBody eventId action notes editedTitle editedBody).lookup "action"
      = some (.str action.toStr) ∧
    (action.toStr = "approve" ∨ action.toStr = "reject") := by
  refine ⟨rfl, rfl, ?_⟩
  cases action
  · exact Or.inl rfl
  · exact Or.inr rfl

end Api

namespace LearningPage

/-- C5 (code-bug exhibit): at a state where the reviewer entered an edited
draft body, the review request sent by `handleReview` carries
`edited_body = ""` — the Learning page never passes `editedDraftBody` to
`reviewEvent`, so the edit cannot reach the publish step. -/
theorem handleReview_drops_edited_body :
    (handleReviewBody ⟨"looks correct", "Corrected body text"⟩ "EVT-1" .approve).lookup
        "edited_body" = some (.str "") ∧
    (handleReviewBody ⟨"looks correct", "Corrected body text"⟩ "EVT-1" .approve).lookup
        "edited_body" ≠ some (.str "Corrected body text") := by
  constructor
  · rfl
  · decide

end LearningPage

namespace Copilot

/-- C6 counterexample: with two completed exchanges, clicking report-gap on
the first (low-confidence) answer sends the second question, while the
question that received that answer was the first one. -/
theorem reportGapClick_counterexample :
    reportGapClick
        [⟨.user, "Q1", none⟩, ⟨.assistant, "A1", some ⟨1/5⟩⟩,
         ⟨.user, "Q2", none⟩, ⟨.assistant, "A2", some ⟨9/10⟩⟩] 1
      = some [("question", .str "Q2"), ("confidence", .num (1/5))] ∧
    questionFor
        [⟨.user, "Q1", none⟩, ⟨.assistant, "A1", some ⟨1/5⟩⟩,
         ⟨.user, "Q2", none⟩, ⟨.assistant, "A2", some ⟨9/10⟩⟩] 1
      = some "Q1" := by
  have h1 : (decide (Role.assistant = Role.user)) = false := rfl
  have h2 : (decide (Role.user = Role.user)) = true := rfl
  constructor
  · norm_num [reportGapClick, lastUserContent, Api.reportGapBody, List.filter, h1, h2]
  · rfl

/-- C6 (amended): every body sent via the report-gap path is exactly
{question, confidence} where confidence is the clicked answer's reported
confidence and question is the content of the most recent user message in the
chat at click time; when no user message follows the clicked answer, that is
exactly the question that received the answer. -/
theorem reportGapClick_correct (messages : List Message) (i : Nat)
    (body : Api.JsonBody) (h : reportGapClick messages i = some body) :
    ∃ msg r, messages[i]? = some msg ∧ msg.response = some r ∧
      msg.role = .assistant ∧ r.confidence < 1/2 ∧
      body = [("question", .str (lastUserContent messages)),
              ("confidence", .num r.confidence)] ∧
      ((∀ m ∈ messages.drop (i+1), m.role ≠ .user) →
        lastUserContent messages = (questionFor messages i).getD "") := by
  unfold reportGapClick at h
  cases hm : messages[i]? with
  | none => rw [hm] at h; exact absurd h (by simp)
  | some msg =>
    rw [hm] at h
    dsimp only at h
    cases hr : msg.response with
    | none => rw [hr] at h; exact absurd h (by simp)
    | some r =>
      rw [hr] at h
      dsimp only at h
      by_cases hc : msg.role = .assistant ∧ r.confidence < 1/2
      · rw [if_pos hc] at h
        refine ⟨msg, r, rfl, hr, hc.1, hc.2, ?_, ?_⟩
        · simpa [Api.reportGapBody] using h.symm
        · intro hafter
          have hsplit : messages = messages.take (i+1) ++ messages.drop (i+1) :=
            (List.take_append_drop (i+1) messages).symm
          have hfildrop : (messages.drop (i+1)).filter (fun m => m.role = .user) = [] := by
            rw [List.filter_eq_nil_iff]
            intro m hmem
            simpa using hafter m hmem
          have htake : messages.take (i+1) = messages.take i ++ [msg] := by
            rw [List.take_succ, hm]
            rfl
          have hfilter : messages.filter (fun m => m.role = .user)
              = (messages.take i).filter (fun m => m.role = .user) := by
            conv_lhs => rw [hsplit]
            rw [List.filter_append, hfildrop, List.append_nil, htake, List.filter_append]
            have : ([msg].filter (fun m => m.role = .user)) = [] := by
              simp [List.filter, hc.1]
            rw [this, List.append_nil]
          unfold lastUserContent questionFor
          rw [hfilter]
          cases hlast : ((messages.take i).filter (fun m => m.role = .user)).getLast? with
          | none => rfl
          | some m => rfl
      · rw [if_neg hc] at h; exact absurd h (by simp)

theorem reportGapClick_correct_witness :
    ∃ msg r,
      ([⟨Role.user, "Q1", none⟩, ⟨Role.assistant, "A1", some ⟨1/5⟩⟩] : List Message)[1]?
        = some msg ∧ msg.response = some r ∧
      msg.role = .assistant ∧ r.confidence < 1/2 ∧
      ([("question", Api.JsonValue.str "Q1"), ("confidence", Api.JsonValue.num (1/5))] : Api.JsonBody)
        = [("question", .str (lastUserContent
              [⟨Role.user, "Q1", none⟩, ⟨Role.assistant, "A1", some ⟨1/5⟩⟩])),
           ("confidence", .num r.confidence)] ∧
      ((∀ m ∈ ([⟨Role.user, "Q1", none⟩, ⟨Role.assistant, "A1", some ⟨1/5⟩⟩] : List Message).drop (1+1),
          m.role ≠ .user) →
        lastUserContent [⟨Role.user, "Q1", none⟩, ⟨Role.assistant, "A1", some ⟨1/5⟩⟩]
          = (questionFor [⟨Role.user, "Q1", none⟩, ⟨Role.assistant, "A1", some ⟨1/5⟩⟩] 1).getD "") :=
  reportGapClick_correct
    [⟨Role.user, "Q1", none⟩, ⟨Role.assistant, "A1", some ⟨1/5⟩⟩] 1
    [("question", .str "Q1"), ("confidence", .num (1/5))] (by
      have h1 : (decide (Role.assistant = Role.user)) = false := rfl
      have h2 : (decide (Role.user = Role.user)) = true := rfl
      norm_num [reportGapClick, lastUserContent, Api.reportGapBody, List.filter, h1, h2])

end Copilot

namespace Markdown

theorem groupRuns_flush (ls : List String) :
    groupRuns ls
      = flushList ((ls.takeWhile (fun l => (numbered l).isSome)).filterMap numbered)
        ++ groupRuns (ls.dropWhile (fun l => (numbered l).isSome)) := by
  cases ls with
  | nil => simp [groupRuns, flushList]
  | cons line rest =>
    by_cases h : (numbered line).isSome
    · obtain ⟨t, ht⟩ := Option.isSome_iff_exists.mp h
      rw [groupRuns, dif_pos h]
      rw [List.takeWhile_cons, if_pos h, List.filterMap_cons, ht]
      simp [flushList]
    · rw [groupRuns, dif_neg h]
      rw [List.takeWhile_cons, if_neg h, List.dropWhile_cons, if_neg h]
      simp only [List.filterMap_nil, flushList, List.isEmpty_nil, if_pos, List.nil_append]
      rw [groupRuns, dif_neg h]

theorem renderLoop_eq (ls : List String) (buf : List String) :
    renderLoop buf ls
      = flushList (buf ++ (ls.takeWhile (fun l => (numbered l).isSome)).filterMap numbered)
        ++ groupRuns (ls.dropWhile (fun l => (numbered l).isSome)) := by
  induction ls generalizing buf with
  | nil => simp [renderLoop, groupRuns, flushList]
  | cons line rest ih =>
    cases hn : numbered line with
    | some t =>
      have hs : (numbered line).isSome := by rw [hn]; rfl
      rw [renderLoop, hn]
      dsimp only
      rw [ih (buf ++ [t])]
      rw [List.takeWhile_cons, if_pos hs, List.dropWhile_cons, if_pos hs,
        List.filterMap_cons, hn, List.append_assoc]
      rfl
    | none =>
      have hs : ¬ (numbered line).isSome := by rw [hn]; simp
      have hrl : renderLoop [] rest = groupRuns rest := by
        rw [ih [], List.nil_append, ← groupRuns_flush]
      rw [renderLoop, hn]
      dsimp only
      rw [hrl]
      rw [List.takeWhile_cons, if_neg hs, List.dropWhile_cons, if_neg hs,
        List.filterMap_nil, List.append_nil]
      rw [groupRuns, dif_neg hs]

/-- C10: the Markdown renderer groups each maximal run of consecutive
numbered-list lines into exactly one ordered-list element whose items are the
captured texts in original order, and every non-matching line (including a
blank line) terminates the current run before being rendered itself — i.e.
the rendering loop coincides with the run-grouping reference function. -/
theorem render_groups_numbered_runs (content : String) :
    render content = groupRuns (content.splitOn "\n") := by
  rw [render, renderLoop_eq, List.nil_append, ← groupRuns_flush]

end Markdown


namespace Core

theorem scanStep_skip (gap : Ticket → Bool) (score : Ticket → ℚ)
    (bestMatch : Ticket → String) (events : List LearningEvent) (t : Ticket)
    (h : hasEventFor events t.number = true) :
    scanStep gap score bestMatch events t = (events, 0) := by
  unfold scanStep
  rw [h]
  simp

theorem scanStep_nogap (gap : Ticket → Bool) (score : Ticket → ℚ)
    (bestMatch : Ticket → String) (events : List LearningEvent) (t : Ticket)
    (h : hasEventFor events t.number = false) (hg : gap t = false) :
    scanStep gap score bestMatch events t = (events, 0) := by
  unfold scanStep
  rw [h, hg]
  simp

theorem scanStep_created (gap : Ticket → Bool) (score : Ticket → ℚ)
    (bestMatch : Ticket → String) (events : List LearningEvent) (t : Ticket)
    (h : hasEventFor events t.number = false) (hg : gap t = true) :
    scanStep gap score bestMatch events t
      = (events ++ [mkGapEvent score bestMatch events t], 1) := by
  unfold scanStep
  rw [h, hg]
  simp

theorem hasEventFor_append (events l : List LearningEvent) (tn : String)
    (h : hasEventFor events tn = true) : hasEventFor (events ++ l) tn = true := by
  simp only [hasEventFor, List.any_append, Bool.or_eq_true]
  exact Or.inl h

theorem scanStep_mono (gap : Ticket → Bool) (score : Ticket → ℚ)
    (bestMatch : Ticket → String) (events : List LearningEvent) (t : Ticket)
    (tn : String) (h : hasEventFor events tn = true) :
    hasEventFor (scanStep gap score bestMatch events t).1 tn = true := by
  cases hh : hasEventFor events t.number
  · cases hg : gap t
    · rw [scanStep_nogap gap score bestMatch events t hh hg]
      exact h
    · rw [scanStep_created gap score bestMatch events t hh hg]
      exact hasEventFor_append events _ tn h
  · rw [scanStep_skip gap score bestMatch events t hh]
    exact h

theorem scanGo_mono (gap : Ticket → Bool) (score : Ticket → ℚ)
    (bestMatch : Ticket → String) (ts : List Ticket) (events : List LearningEvent)
    (tn : String) (h : hasEventFor events tn = true) :
    hasEventFor (scanGo gap score bestMatch events ts).1 tn = true := by
  induction ts generalizing events with
  | nil => exact h
  | cons t ts ih =>
    rw [scanGo]
    exact ih _ (scanStep_mono gap score bestMatch events t tn h)

theorem scanStep_covers (gap : Ticket → Bool) (score : Ticket → ℚ)
    (bestMatch : Ticket → String) (events : List LearningEvent) (t : Ticket)
    (hg : gap t = true) :
    hasEventFor (scanStep gap score bestMatch events t).1 t.number = true := by
  cases hh : hasEventFor events t.number
  · rw [scanStep_created gap score bestMatch events t hh hg]
    simp only [hasEventFor, List.any_append, Bool.or_eq_true, List.any_cons,
      List.any_nil, Bool.or_false, beq_iff_eq]
    exact Or.inr rfl
  · rw [scanStep_skip gap score bestMatch events t hh]
    exact hh

theorem scanGo_covers (gap : Ticket → Bool) (score : Ticket → ℚ)
    (bestMatch : Ticket → String) (ts : List Ticket) (events : List LearningEvent) :
    ∀ t ∈ ts, gap t = true →
      hasEventFor (scanGo gap score bestMatch events ts).1 t.number = true := by
  induction ts generalizing events with
  | nil => intro t ht; cases ht
  | cons t' ts ih =>
    intro t ht hg
    rw [scanGo]
    rcases List.mem_cons.mp ht with rfl | hmem
    · exact scanGo_mono gap score bestMatch ts _ t.number
        (scanStep_covers gap score bestMatch events t hg)
    · exact ih _ t hmem hg

theorem scanGo_no_new (gap : Ticket → Bool) (score : Ticket → ℚ)
    (bestMatch : Ticket → String) (ts : List Ticket) (events : List LearningEvent)
    (h : ∀ t ∈ ts, gap t = true → hasEventFor events t.number = true) :
    scanGo gap score bestMatch events ts = (events, 0) := by
  induction ts generalizing events with
  | nil => rfl
  | cons t ts ih =>
    have hstep : scanStep gap score bestMatch events t = (events, 0) := by
      cases hh : hasEventFor events t.number
      · cases hg : gap t
        · exact scanStep_nogap gap score bestMatch events t hh hg
        · exact absurd (h t (List.mem_cons_self t ts) hg) (by simp [hh])
      · exact scanStep_skip gap score bestMatch events t hh
    rw [scanGo, hstep]
    have hrest := ih events (fun t' ht' hg' => h t' (List.mem_cons_of_mem t ht') hg')
    rw [hrest]
    rfl

/-- C3: `scan()` is idempotent: running it again on the store produced by a
previous run over the same resolved tickets (no newly resolved tickets and
the same retrieval outcome in between) reports `new_gaps_found = 0`, because
deduplication is keyed by `ticket_number`. -/
theorem scan_idempotent (gap : Ticket → Bool) (score : Ticket → ℚ)
    (bestMatch : Ticket → String) (tickets : List Ticket)
    (events : List LearningEvent) :
    (scan gap score bestMatch tickets
      (scan gap score bestMatch tickets events).1).2.new_gaps_found = 0 := by
  have hcov : ∀ t ∈ tickets, gap t = true →
      hasEventFor (scanGo gap score bestMatch events tickets).1 t.number = true :=
    fun t ht hg => scanGo_covers gap score bestMatch tickets events t ht hg
  unfold scan
  rw [scanGo_no_new gap score bestMatch tickets _ hcov]

theorem countP_pending_zero_of_no_event (events : List LearningEvent) (tn : String)
    (h : hasEventFor events tn = false) :
    events.countP (fun e => e.status == .Pending && e.ticket_number == tn) = 0 := by
  rw [List.countP_eq_zero]
  intro a ha hpa
  simp only [Bool.and_eq_true, beq_iff_eq] at hpa
  have hmem : hasEventFor events tn = true := by
    simp only [hasEventFor, List.any_eq_true]
    exact ⟨a, ha, by simp [hpa.2]⟩
  rw [h] at hmem
  cases hmem

theorem amop_append_new (events : List LearningEvent) (e : LearningEvent)
    (hnew : hasEventFor events e.ticket_number = false)
    (h : AtMostOnePending events) : AtMostOnePending (events ++ [e]) := by
  intro tn
  rw [List.countP_append]
  by_cases htn : e.ticket_number = tn
  · rw [countP_pending_zero_of_no_event events tn (htn ▸ hnew)]
    have hle : ([e] : List LearningEvent).countP
        (fun x => x.status == .Pending && x.ticket_number == tn) ≤ 1 :=
      le_trans (List.countP_le_length _) (by simp)
    omega
  · have h1 : ([e] : List LearningEvent).countP
        (fun x => x.status == .Pending && x.ticket_number == tn) = 0 := by
      rw [List.countP_eq_zero]
      intro a ha hpa
      rw [List.mem_singleton] at ha
      subst ha
      simp only [Bool.and_eq_true, beq_iff_eq] at hpa
      exact htn hpa.2
    have := h tn
    omega

theorem amop_update (events : List LearningEvent) (eid : Nat)
    (f : LearningEvent → LearningEvent) (hf : ∀ e, (f e).status ≠ .Pending)
    (h : AtMostOnePending events) : AtMostOnePending (updateEvent events eid f) := by
  intro tn
  unfold updateEvent
  rw [List.countP_map]
  refine le_trans (List.countP_mono_left ?_) (h tn)
  intro a ha hpa
  by_cases hid : (a.event_id == eid) = true
  · exfalso
    simp only [Function.comp_apply, hid, if_true] at hpa
    simp only [Bool.and_eq_true, beq_iff_eq] at hpa
    exact hf a hpa.1
  · simpa only [Function.comp_apply, hid, if_false] using hpa

theorem scanStep_amop (gap : Ticket → Bool) (score : Ticket → ℚ)
    (bestMatch : Ticket → String) (events : List LearningEvent) (t : Ticket)
    (h : AtMostOnePending events) :
    AtMostOnePending (scanStep gap score bestMatch events t).1 := by
  cases hh : hasEventFor events t.number
  · cases hg : gap t
    · rw [scanStep_nogap gap score bestMatch events t hh hg]
      exact h
    · rw [scanStep_created gap score bestMatch events t hh hg]
      exact amop_append_new events _ hh h
  · rw [scanStep_skip gap score bestMatch events t hh]
    exact h

theorem scanGo_amop (gap : Ticket → Bool) (score : Ticket → ℚ)
    (bestMatch : Ticket → String) (ts : List Ticket) (events : List LearningEvent)
    (h : AtMostOnePending events) :
    AtMostOnePending (scanGo gap score bestMatch events ts).1 := by
  induction ts generalizing events with
  | nil => exact h
  | cons t ts ih =>
    rw [scanGo]
    exact ih _ (scanStep_amop gap score bestMatch events t h)

theorem report_amop (s : SysState) (tn question : String) (confidence : ℚ)
    (h : AtMostOnePending s.events) :
    AtMostOnePending (reportGap s tn question confidence).events := by
  unfold reportGap
  by_cases hh : hasEventFor s.events tn = true
  · rw [if_pos hh]
    exact h
  · rw [if_neg hh]
    exact amop_append_new s.events _ (by simpa using hh) h

theorem reject_amop (s : SysState) (eid : Nat) (notes : String)
    (h : AtMostOnePending s.events) :
    AtMostOnePending (reject s eid notes).1.events := by
  unfold reject
  cases hf : findEvent s.events eid with
  | none => exact h
  | some e =>
    dsimp only
    by_cases hp : e.status = .Pending
    · rw [if_pos hp]
      exact amop_update s.events eid _ (fun ev => by simp) h
    · rw [if_neg hp]
      exact h

theorem approve_amop (s : SysState) (eid : Nat) (notes : String)
    (content : DraftContent) (h : AtMostOnePending s.events) :
    AtMostOnePending (approve s eid notes content).1.events := by
  unfold approve
  cases hf : findEvent s.events eid with
  | none => exact h
  | some e =>
    dsimp only
    by_cases hp : e.status = .Pending
    · rw [if_pos hp]
      exact amop_update s.events eid _ (fun ev => by simp) h
    · rw [if_neg hp]
      exact h

theorem step_amop {s t : SysState} (hst : Step s t) (h : AtMostOnePending s.events) :
    AtMostOnePending t.events := by
  cases hst with
  | scan gap score bestMatch tickets s =>
    exact scanGo_amop gap score bestMatch tickets s.events h
  | report tn question confidence s => exact report_amop s tn question confidence h
  | reject eid notes s => exact reject_amop s eid notes h
  | approve eid notes content s => exact approve_amop s eid notes content h

/-- C2: at every core state reachable from a state whose EventStore satisfies
the dedup invariant, every ticket number has at most one Pending event; in
particular the invariant still holds right after any further `scan()`
completes. -/
theorem pending_unique (s₀ s : SysState) (h0 : AtMostOnePending s₀.events)
    (hr : Reachable s₀ s) :
    AtMostOnePending s.events ∧
    ∀ (gap : Ticket → Bool) (score : Ticket → ℚ) (bestMatch : Ticket → String)
      (tickets : List Ticket),
      AtMostOnePending (scanState gap score bestMatch tickets s).1.events := by
  have main : AtMostOnePending s.events := by
    induction hr with
    | refl => exact h0
    | tail _ hstep ih => exact step_amop hstep ih
  exact ⟨main, fun gap score bestMatch tickets =>
    step_amop (Step.scan gap score bestMatch tickets s) main⟩

theorem pending_unique_witness :
    Core.AtMostOnePending (⟨[], [], []⟩ : Core.SysState).events :=
  (Core.pending_unique ⟨[], [], []⟩ ⟨[], [], []⟩ (fun tn => by simp)
    (Core.Reachable.refl _)).1

/-- C4: for an event present in the EventStore, `approve` and `reject`
succeed exactly when its status is Pending; a decision on an event whose
status is Approved or Rejected fails with `InvalidStateError` and leaves the
state unchanged. -/
theorem review_requires_pending (s : SysState) (eid : Nat) (e : LearningEvent)
    (notes : String) (content : DraftContent)
    (hfind : findEvent s.events eid = some e) :
    ((∃ kid, (approve s eid notes content).2 = .ok kid) ↔ e.status = .Pending) ∧
    ((reject s eid notes).2 = .ok () ↔ e.status = .Pending) ∧
    (e.status = .Approved ∨ e.status = .Rejected →
      approve s eid notes content = (s, .error .InvalidStateError) ∧
      reject s eid notes = (s, .error .InvalidStateError)) := by
  have hterm_ne : (e.status = .Approved ∨ e.status = .Rejected) → e.status ≠ .Pending := by
    intro hst hp
    rcases hst with h | h <;> rw [hp] at h <;> cases h
  unfold approve reject
  rw [hfind]
  dsimp only
  by_cases hp : e.status = .Pending
  · rw [if_pos hp, if_pos hp]
    refine ⟨⟨fun _ => hp, fun _ => ⟨_, rfl⟩⟩, ⟨fun _ => hp, fun _ => rfl⟩, ?_⟩
    intro hst
    exact absurd hp (hterm_ne hst)
  · rw [if_neg hp, if_neg hp]
    refine ⟨⟨?_, fun hp' => absurd hp' hp⟩, ⟨?_, fun hp' => absurd hp' hp⟩,
      fun _ => ⟨rfl, rfl⟩⟩
    · rintro ⟨kid, hk⟩
      cases hk
    · intro hk
      cases hk

theorem review_requires_pending_witness :
    Core.approve
        ⟨[⟨1, "T-100", "gap", "KB-T-100", .Approved, "ok", 0, "KB-1"⟩], [], []⟩
        1 "second decision" ⟨"T", "B"⟩
      = (⟨[⟨1, "T-100", "gap", "KB-T-100", .Approved, "ok", 0, "KB-1"⟩], [], []⟩,
         .error .InvalidStateError) ∧
    Core.reject
        ⟨[⟨1, "T-100", "gap", "KB-T-100", .Approved, "ok", 0, "KB-1"⟩], [], []⟩
        1 "second decision"
      = (⟨[⟨1, "T-100", "gap", "KB-T-100", .Approved, "ok", 0, "KB-1"⟩], [], []⟩,
         .error .InvalidStateError) :=
  (Core.review_requires_pending
    ⟨[⟨1, "T-100", "gap", "KB-T-100", .Approved, "ok", 0, "KB-1"⟩], [], []⟩
    1 ⟨1, "T-100", "gap", "KB-T-100", .Approved, "ok", 0, "KB-1"⟩
    "second decision" ⟨"T", "B"⟩ rfl).2.2 (Or.inl rfl)

theorem scanGo_only_adds (gap : Ticket → Bool) (score : Ticket → ℚ)
    (bestMatch : Ticket → String) (ts : List Ticket) (events : List LearningEvent) :
    ∀ e ∈ (scanGo gap score bestMatch events ts).1, e ∈ events ∨ e.status = .Pending := by
  induction ts generalizing events with
  | nil => intro e he; exact Or.inl he
  | cons t ts ih =>
    intro e he
    rw [scanGo] at he
    rcases ih _ e he with hmem | hp
    · cases hh : hasEventFor events t.number
      · cases hg : gap t
        · rw [scanStep_nogap gap score bestMatch events t hh hg] at hmem
          exact Or.inl hmem
        · rw [scanStep_created gap score bestMatch events t hh hg] at hmem
          rcases List.mem_append.mp hmem with hm | hm
          · exact Or.inl hm
          · rw [List.mem_singleton] at hm
            subst hm
            exact Or.inr rfl
      · rw [scanStep_skip gap score bestMatch events t hh] at hmem
        exact Or.inl hmem
    · exact Or.inr hp

theorem step_inv {s t : SysState} (hst : Step s t) (h : Inv s) : Inv t := by
  cases hst with
  | scan gap score bestMatch tickets s =>
    refine ⟨h.1, ?_⟩
    intro e he happ
    rcases scanGo_only_adds gap score bestMatch tickets s.events e he with hmem | hp
    · exact h.2 e hmem happ
    · rw [happ] at hp
      cases hp
  | report tn question confidence s =>
    unfold reportGap
    by_cases hh : hasEventFor s.events tn = true
    · rw [if_pos hh]
      exact h
    · rw [if_neg hh]
      refine ⟨h.1, ?_⟩
      intro e he happ
      rcases List.mem_append.mp he with hm | hm
      · exact h.2 e hm happ
      · rw [List.mem_singleton] at hm
        subst hm
        cases happ
  | reject eid notes s =>
    unfold reject
    cases hf : findEvent s.events eid with
    | none => exact h
    | some e =>
      dsimp only
      by_cases hp : e.status = .Pending
      · rw [if_pos hp]
        refine ⟨h.1, ?_⟩
        intro e' he' happ
        unfold updateEvent at he'
        rcases List.mem_map.mp he' with ⟨a, ha, hga⟩
        by_cases hid : (a.event_id == eid) = true
        · rw [if_pos hid] at hga
          rw [← hga] at happ
          cases happ
        · rw [if_neg hid] at hga
          subst hga
          exact h.2 a ha happ
      · rw [if_neg hp]
        exact h
  | approve eid notes content s =>
    unfold approve
    cases hf : findEvent s.events eid with
    | none => exact h
    | some e =>
      dsimp only
      by_cases hp : e.status = .Pending
      · rw [if_pos hp]
        constructor
        · intro a ha hpub
          rcases List.mem_append.mp ha with hm | hm
          · rcases h.1 a hm hpub with ⟨d, hd, hd1⟩
            exact ⟨d, List.mem_append_left _ hd, hd1⟩
          · rw [List.mem_singleton] at hm
            subst hm
            refine ⟨(publishId s e, content.body), ?_, rfl⟩
            exact List.mem_append_right _ (List.mem_singleton_self _)
        · intro e' he' happ
          unfold updateEvent at he'
          rcases List.mem_map.mp he' with ⟨a, ha, hga⟩
          by_cases hid : (a.event_id == eid) = true
          · rw [if_pos hid] at hga
            subst hga
            exact ⟨_, List.mem_append_right _ (List.mem_singleton_self _), rfl, rfl,
              (publishId s e, content.body),
              List.mem_append_right _ (List.mem_singleton_self _), rfl⟩
          · rw [if_neg hid] at hga
            subst hga
            rcases h.2 a ha happ with ⟨a', ha', hkb, hpub, d, hd, hd1⟩
            exact ⟨a', List.mem_append_left _ ha', hkb, hpub, d,
              List.mem_append_left _ hd, hd1⟩
      · rw [if_neg hp]
        exact h

theorem reachable_inv (s₀ s : SysState) (h0 : Inv s₀) (hr : Reachable s₀ s) :
    Inv s := by
  induction hr with
  | refl => exact h0
  | tail _ hstep ih => exact step_inv hstep ih

theorem approve_ok_index (s : SysState) (eid : Nat) (notes : String)
    (content : DraftContent) (kid : String)
    (h : (approve s eid notes content).2 = .ok kid) :
    (kid, content.body) ∈ (approve s eid notes content).1.index := by
  unfold approve at h ⊢
  cases hf : findEvent s.events eid with
  | none =>
    rw [hf] at h
    dsimp only at h
    simp at h
  | some e =>
    rw [hf] at h
    dsimp only at h ⊢
    by_cases hp : e.status = .Pending
    · rw [if_pos hp] at h ⊢
      have hkid : kid = publishId s e := by
        cases h
        rfl
      subst hkid
      exact List.mem_append_right _ (List.mem_singleton_self _)
    · rw [if_neg hp] at h
      simp at h

theorem retrieve_mem (sim : String → String → ℚ) (s : SysState) (query : String)
    (kid body : String) (h : (kid, body) ∈ s.index) :
    isCandidate (retrieve sim s query) kid := by
  unfold retrieve isCandidate
  have hperm := List.mergeSort_perm
    (s.index.map (fun d => { id := d.1, score := sim query d.2 : SearchHit }))
    (fun a b => decide (b.score ≤ a.score))
  refine ⟨{ id := kid, score := sim query body }, ?_, rfl⟩
  rw [hperm.mem_iff]
  exact List.mem_map.mpr ⟨(kid, body), h, rfl⟩

/-- C1: at every core state reachable from a state satisfying the atomicity
invariant, no reader observes a Published article whose embedding is not
searchable and no reader observes an Approved event without an existing,
indexed article; moreover, whenever the publish transaction returns success,
a retrieval against the new article's content returns it as a candidate
match, with no intermediate state in between. -/
theorem publish_atomicity (s₀ s : SysState) (h0 : Inv s₀) (hr : Reachable s₀ s) :
    Inv s ∧
    ∀ (eid : Nat) (notes : String) (content : DraftContent) (kid : String)
      (sim : String → String → ℚ),
      (approve s eid notes content).2 = .ok kid →
      isCandidate (retrieve sim (approve s eid notes content).1 content.body) kid := by
  refine ⟨reachable_inv s₀ s h0 hr, ?_⟩
  intro eid notes content kid sim h
  exact retrieve_mem sim _ content.body kid content.body (approve_ok_index s eid notes content kid h)

theorem publish_atomicity_witness :
    Core.Inv (⟨[], [], []⟩ : Core.SysState) :=
  (Core.publish_atomicity ⟨[], [], []⟩ ⟨[], [], []⟩
    ⟨fun a ha => absurd ha (List.not_mem_nil a), fun e he => absurd he (List.not_mem_nil e)⟩
    (Core.Reachable.refl _)).1

end Core
